import Mathlib

/-
  Verification development for the Diracxx (Dirac++ / Lorentz++) library.

  The development shallowly embeds the parts of the library that the
  checked properties are about:

  * TFourVectorReal (src/TFourVectorReal.h): four-vector components,
    Resolution, Invariant, InvariantSqr, DistanceTo, ScalarProd,
    component access, tolerant equality.
  * TCrossSection (TCrossSection.cxx): the spin-density-matrix weighted
    spin sums of the five reaction functions, the Dirac-matrix chain
    assembly of eeBremsstrahlung and TripletProduction, and the
    kinematic-factor tail of Compton including the code after its
    unconditional return statement.

  Machine doubles (LDouble_t) are modelled by exact real numbers; the
  complex amplitude arithmetic (Complex_t) is modelled by pairs of
  rationals so that concrete evaluations are decidable.

  Parts of the library that the claims need but that are not among the
  provided sources (TThreeVectorReal's LengthSqr and its fResolution
  constant, the boost formula of TLorentzBoost::SetBeta, the gamma-matrix
  representation of TDiracMatrix) are modelled from the specification and
  carry a doc comment saying so.
-/

namespace Diracxx

/-- Real four-vector: the fVector[4] array of TFourVectorReal, with
machine doubles modelled by exact reals.  Index 0 is the time component. -/
def FourVec : Type := Fin 4 → ℝ

/-- Constructor TFourVectorReal(t, x, y, z). -/
noncomputable def mkFour (t x y z : ℝ) : FourVec :=
  fun i => if i = 0 then t else if i = 1 then x else if i = 2 then y else z

/-- Modelled from the spec: TThreeVectorReal::LengthSqr (the file
TThreeVectorReal.h is not among the provided sources).  The spec fixes
the invariant as t^2 - x^2 - y^2 - z^2 with LengthSqr the spatial part
x^2 + y^2 + z^2. -/
noncomputable def LengthSqr (v : FourVec) : ℝ :=
  v 1 * v 1 + v 2 * v 2 + v 3 * v 3

/-- Modelled from the spec: TThreeVectorReal::Length, the Euclidean
length of the spatial part (TThreeVectorReal.h is not among the provided
sources). -/
noncomputable def Length (v : FourVec) : ℝ :=
  Real.sqrt (LengthSqr v)

/-- TFourVectorReal::Resolution (src/TFourVectorReal.h lines 148-155):
a relative tolerance scaled by the Euclidean magnitude of the vector.
The constant fResolution of TThreeVectorReal is not among the provided
sources; following the spec (a fixed relative tolerance) it is kept as
an explicit parameter fRes. -/
noncomputable def Resolution (fRes : ℝ) (v : FourVec) : ℝ :=
  if 0 < Real.sqrt (v 0 * v 0 + LengthSqr v) then
    fRes * Real.sqrt (v 0 * v 0 + LengthSqr v)
  else
    fRes

/-- TFourVectorReal::InvariantSqr (src/TFourVectorReal.h lines 179-182). -/
noncomputable def InvariantSqr (v : FourVec) : ℝ :=
  v 0 * v 0 - LengthSqr v

/-- TFourVectorReal::Invariant (src/TFourVectorReal.h lines 166-177).
The first component of the result records whether the error path
(Error("invoked on a vector with negative norm")) was taken; the second
is the returned value. -/
noncomputable def Invariant (fRes : ℝ) (v : FourVec) : Bool × ℝ :=
  if 0 < InvariantSqr v then
    (false, Real.sqrt (InvariantSqr v))
  else if -Resolution fRes v < InvariantSqr v then
    (false, 0)
  else
    (true, -1)

/-- TFourVectorReal::DistanceTo (src/TFourVectorReal.h lines 222-230). -/
noncomputable def DistanceTo (v w : FourVec) : ℝ :=
  Real.sqrt ((v 0 - w 0) * (v 0 - w 0) + (v 1 - w 1) * (v 1 - w 1) +
             (v 2 - w 2) * (v 2 - w 2) + (v 3 - w 3) * (v 3 - w 3))

/-- TFourVectorReal::ScalarProd (src/TFourVectorReal.h lines 353-359). -/
noncomputable def ScalarProd (v w : FourVec) : ℝ :=
  v 0 * w 0 - v 1 * w 1 - v 2 * w 2 - v 3 * w 3

/-- Componentwise sum, operator+ of TFourVectorReal. -/
noncomputable def addFour (v w : FourVec) : FourVec :=
  fun i => v i + w i

/-- Euclidean norm of a four-component perturbation, the quantity the
tolerant equality compares against Resolution. -/
noncomputable def euclidNorm (e : FourVec) : ℝ :=
  Real.sqrt (e 0 * e 0 + e 1 * e 1 + e 2 * e 2 + e 3 * e 3)

/-- TFourVectorReal::operator== (src/TFourVectorReal.h lines 334-337):
distance to the other vector below the receiver's own resolution. -/
noncomputable def fourVecEq (fRes : ℝ) (v w : FourVec) : Prop :=
  DistanceTo v w < Resolution fRes v

/-- TFourVectorReal::operator[] (src/TFourVectorReal.h lines 157-164).
The Bool records whether the error path was taken; out-of-range access
reports an error and falls back to component 0. -/
noncomputable def getComponent (v : FourVec) (index : ℤ) : Bool × ℝ :=
  if h : index < 0 ∨ 3 < index then
    (true, v 0)
  else
    (false, v ⟨index.toNat, by omega⟩)

theorem mkFour_at0 (t x y z : ℝ) : mkFour t x y z 0 = t := rfl

theorem mkFour_at1 (t x y z : ℝ) : mkFour t x y z 1 = x := rfl

theorem mkFour_at2 (t x y z : ℝ) : mkFour t x y z 2 = y := rfl

theorem mkFour_at3 (t x y z : ℝ) : mkFour t x y z 3 = z := rfl

theorem resolution_pos (fRes : ℝ) (v : FourVec) (h : 0 < fRes) :
    0 < Resolution fRes v := by
  unfold Resolution
  split_ifs with hs
  · exact mul_pos h hs
  · exact h

/-- C10: ScalarProd(v, v) coincides with InvariantSqr(v), and ScalarProd
is symmetric in its two arguments; both use the (+,-,-,-) metric. -/
theorem scalarProd_consistent :
    (∀ v : FourVec, ScalarProd v v = InvariantSqr v) ∧
    (∀ v w : FourVec, ScalarProd v w = ScalarProd w v) := by
  constructor
  · intro v
    unfold ScalarProd InvariantSqr LengthSqr
    ring
  · intro v w
    unfold ScalarProd
    ring

/-- C5: component access with index in [0,3] returns the component at
that position without error; access outside [0,3] reports a (non-fatal)
error and returns the first component as fallback. -/
theorem getComponent_cases :
    ∀ (v : FourVec) (i : ℤ),
      (∀ h : 0 ≤ i ∧ i ≤ 3,
        getComponent v i = (false, v ⟨i.toNat, by omega⟩)) ∧
      (i < 0 ∨ 3 < i → getComponent v i = (true, v 0)) := by
  intro v i
  constructor
  · intro h
    unfold getComponent
    rw [dif_neg (by omega)]
  · intro h
    unfold getComponent
    rw [dif_pos h]

/-- C3: Invariant() returns sqrt(InvariantSqr) when InvariantSqr is
non-negative; returns 0 with no error when InvariantSqr is negative but
within the resolution tolerance of zero; reports an error (returning -1)
when InvariantSqr is negative beyond that tolerance. -/
theorem invariant_cases :
    ∀ (fRes : ℝ) (v : FourVec), 0 < fRes →
      (0 ≤ InvariantSqr v →
        Invariant fRes v = (false, Real.sqrt (InvariantSqr v))) ∧
      (InvariantSqr v < 0 → -Resolution fRes v < InvariantSqr v →
        Invariant fRes v = (false, 0)) ∧
      (InvariantSqr v ≤ -Resolution fRes v →
        Invariant fRes v = (true, -1)) := by
  intro fRes v hf
  refine ⟨?_, ?_, ?_⟩
  · intro h0
    rcases lt_or_eq_of_le h0 with hlt | heq
    · unfold Invariant
      rw [if_pos hlt]
    · unfold Invariant
      rw [if_neg (by rw [← heq]; exact lt_irrefl 0),
          if_pos (by rw [← heq]; exact neg_neg_of_pos (resolution_pos fRes v hf)),
          ← heq, Real.sqrt_zero]
  · intro hneg htol
    unfold Invariant
    rw [if_neg (not_lt.2 (le_of_lt hneg)), if_pos htol]
  · intro hbeyond
    unfold Invariant
    have hres := resolution_pos fRes v hf
    rw [if_neg (not_lt.2 (le_trans hbeyond (by linarith))),
        if_neg (not_lt.2 hbeyond)]

theorem invariant_cases_witness :
    (0 : ℝ) < 1e-12 ∧
    InvariantSqr (mkFour ((1e20 - 1) / 2e20) ((1e20 + 1) / 2e20) 0 0) = -(1e-20) ∧
    InvariantSqr (mkFour ((1e20 - 1) / 2e20) ((1e20 + 1) / 2e20) 0 0) < 0 ∧
    -Resolution 1e-12 (mkFour ((1e20 - 1) / 2e20) ((1e20 + 1) / 2e20) 0 0) <
      InvariantSqr (mkFour ((1e20 - 1) / 2e20) ((1e20 + 1) / 2e20) 0 0) ∧
    Invariant 1e-12 (mkFour ((1e20 - 1) / 2e20) ((1e20 + 1) / 2e20) 0 0) =
      (false, 0) := by
  have hinv : InvariantSqr (mkFour ((1e20 - 1) / 2e20) ((1e20 + 1) / 2e20) 0 0) =
      -(1e-20) := by
    unfold InvariantSqr LengthSqr
    rw [mkFour_at0, mkFour_at1, mkFour_at2, mkFour_at3]
    norm_num
  have hscale : (mkFour ((1e20 - 1) / 2e20) ((1e20 + 1) / 2e20) 0 0) 0 *
        (mkFour ((1e20 - 1) / 2e20) ((1e20 + 1) / 2e20) 0 0) 0 +
      LengthSqr (mkFour ((1e20 - 1) / 2e20) ((1e20 + 1) / 2e20) 0 0) =
      (1e40 + 1) / 2e40 := by
    unfold LengthSqr
    rw [mkFour_at0, mkFour_at1, mkFour_at2, mkFour_at3]
    norm_num
  have hres : -Resolution 1e-12 (mkFour ((1e20 - 1) / 2e20) ((1e20 + 1) / 2e20) 0 0) <
      InvariantSqr (mkFour ((1e20 - 1) / 2e20) ((1e20 + 1) / 2e20) 0 0) := by
    rw [hinv]
    unfold Resolution
    rw [hscale, if_pos (Real.sqrt_pos.2 (by norm_num))]
    have hsq : (1e-8 : ℝ) < Real.sqrt ((1e40 + 1) / 2e40) :=
      (Real.lt_sqrt (by norm_num)).2 (by norm_num)
    nlinarith [hsq]
  refine ⟨by norm_num, hinv, by rw [hinv]; norm_num, hres, ?_⟩
  exact (invariant_cases 1e-12 _ (by norm_num)).2.1 (by rw [hinv]; norm_num) hres

theorem getComponent_cases_witness :
    (0 ≤ (2 : ℤ) ∧ (2 : ℤ) ≤ 3) ∧ ((5 : ℤ) < 0 ∨ 3 < (5 : ℤ)) ∧
    getComponent (mkFour 10 11 12 13) 2 = (false, 12) ∧
    getComponent (mkFour 10 11 12 13) 5 = (true, 10) := by
  refine ⟨by omega, by omega, ?_, ?_⟩
  · exact ((getComponent_cases (mkFour 10 11 12 13) 2).1 ⟨by omega, by omega⟩)
  · exact ((getComponent_cases (mkFour 10 11 12 13) 5).2 (by omega))

theorem distanceTo_self (v : FourVec) : DistanceTo v v = 0 := by
  unfold DistanceTo
  simp [Real.sqrt_zero]

theorem distanceTo_addFour (v e : FourVec) :
    DistanceTo v (addFour v e) = euclidNorm e := by
  unfold DistanceTo addFour euclidNorm
  congr 1
  ring

theorem distanceTo_comm (v w : FourVec) : DistanceTo v w = DistanceTo w v := by
  unfold DistanceTo
  congr 1
  ring

/-- C6 (amended): four-vector equality is reflexive; it accepts a
perturbation of Euclidean size below the receiver's resolution and
rejects one of size at or above it; and it is symmetric whenever the two
vectors have equal resolutions.  (Unconditional symmetry fails: each
comparison uses the left operand's own resolution.) -/
theorem fourVecEq_props :
    ∀ (fRes : ℝ) (v w e : FourVec), 0 < fRes →
      fourVecEq fRes v v ∧
      (euclidNorm e < Resolution fRes v → fourVecEq fRes v (addFour v e)) ∧
      (Resolution fRes v ≤ euclidNorm e → ¬ fourVecEq fRes v (addFour v e)) ∧
      (Resolution fRes v = Resolution fRes w →
        (fourVecEq fRes v w ↔ fourVecEq fRes w v)) := by
  intro fRes v w e hf
  refine ⟨?_, ?_, ?_, ?_⟩
  · unfold fourVecEq
    rw [distanceTo_self]
    exact resolution_pos fRes v hf
  · intro h
    unfold fourVecEq
    rwa [distanceTo_addFour]
  · intro h
    unfold fourVecEq
    rw [distanceTo_addFour]
    exact not_lt.2 h
  · intro hrw
    unfold fourVecEq
    rw [distanceTo_comm v w, hrw]

theorem fourVecEq_props_witness :
    (0 : ℝ) < 1e-12 ∧
    euclidNorm (mkFour 1e-13 0 0 0) < Resolution 1e-12 (mkFour 1 0 0 0) ∧
    fourVecEq 1e-12 (mkFour 1 0 0 0)
      (addFour (mkFour 1 0 0 0) (mkFour 1e-13 0 0 0)) := by
  have hres : Resolution 1e-12 (mkFour 1 0 0 0) = 1e-12 := by
    have hs : (mkFour 1 0 0 0) 0 * (mkFour 1 0 0 0) 0 +
        LengthSqr (mkFour 1 0 0 0) = 1 := by
      unfold LengthSqr
      rw [mkFour_at0, mkFour_at1, mkFour_at2, mkFour_at3]
      norm_num
    unfold Resolution
    rw [hs, Real.sqrt_one, if_pos one_pos, mul_one]
  have hlt : euclidNorm (mkFour 1e-13 0 0 0) < Resolution 1e-12 (mkFour 1 0 0 0) := by
    rw [hres]
    unfold euclidNorm
    rw [mkFour_at0, mkFour_at1, mkFour_at2, mkFour_at3]
    rw [show (1e-13 : ℝ) * 1e-13 + 0 * 0 + 0 * 0 + 0 * 0 = 1e-26 by norm_num]
    exact (Real.sqrt_lt' (by norm_num)).2 (by norm_num)
  exact ⟨by norm_num, hlt,
    (fourVecEq_props 1e-12 (mkFour 1 0 0 0) (mkFour 1 0 0 0) (mkFour 1e-13 0 0 0)
      (by norm_num)).2.1 hlt⟩

/-- C6 counterexample: equality is not symmetric.  With w slightly larger
than v = (1,0,0,0), the separation lies between the two resolutions, so
w == v holds while v == w fails. -/
theorem fourVecEq_not_symmetric :
    fourVecEq 1e-12 (mkFour (1 + 1e-12 + 1e-25) 0 0 0) (mkFour 1 0 0 0) ∧
    ¬ fourVecEq 1e-12 (mkFour 1 0 0 0) (mkFour (1 + 1e-12 + 1e-25) 0 0 0) := by
  have hd1 : DistanceTo (mkFour (1 + 1e-12 + 1e-25) 0 0 0) (mkFour 1 0 0 0) =
      1e-12 + 1e-25 := by
    unfold DistanceTo
    rw [mkFour_at0, mkFour_at1, mkFour_at2, mkFour_at3,
        mkFour_at0, mkFour_at1, mkFour_at2, mkFour_at3]
    rw [show (1 + 1e-12 + 1e-25 - 1 : ℝ) * (1 + 1e-12 + 1e-25 - 1) +
        (0 - 0) * (0 - 0) + (0 - 0) * (0 - 0) + (0 - 0) * (0 - 0) =
        (1e-12 + 1e-25) ^ 2 by norm_num]
    exact Real.sqrt_sq (by norm_num)
  have hd2 : DistanceTo (mkFour 1 0 0 0) (mkFour (1 + 1e-12 + 1e-25) 0 0 0) =
      1e-12 + 1e-25 := by
    rw [distanceTo_comm]
    exact hd1
  have hresv : Resolution 1e-12 (mkFour 1 0 0 0) = 1e-12 := by
    have hs : (mkFour 1 0 0 0) 0 * (mkFour 1 0 0 0) 0 +
        LengthSqr (mkFour 1 0 0 0) = 1 := by
      unfold LengthSqr
      rw [mkFour_at0, mkFour_at1, mkFour_at2, mkFour_at3]
      norm_num
    unfold Resolution
    rw [hs, Real.sqrt_one, if_pos one_pos, mul_one]
  have hresw : Resolution 1e-12 (mkFour (1 + 1e-12 + 1e-25) 0 0 0) =
      1e-12 * (1 + 1e-12 + 1e-25) := by
    have hs : (mkFour (1 + 1e-12 + 1e-25) 0 0 0) 0 *
        (mkFour (1 + 1e-12 + 1e-25) 0 0 0) 0 +
        LengthSqr (mkFour (1 + 1e-12 + 1e-25) 0 0 0) =
        (1 + 1e-12 + 1e-25) ^ 2 := by
      unfold LengthSqr
      rw [mkFour_at0, mkFour_at1, mkFour_at2, mkFour_at3]
      norm_num
    unfold Resolution
    rw [hs, Real.sqrt_sq (by norm_num),
        if_pos (by norm_num : (0:ℝ) < 1 + 1e-12 + 1e-25)]
  constructor
  · unfold fourVecEq
    rw [hd1, hresw]
    norm_num
  · unfold fourVecEq
    rw [hd2, hresv]
    norm_num

/-- Modelled from the spec: the Lorentz factor gamma = 1/sqrt(1 - beta^2)
used by TLorentzBoost::SetBeta (TLorentzBoost.cxx is not among the
provided sources). -/
noncomputable def gammaFactor (b1 b2 b3 : ℝ) : ℝ :=
  1 / Real.sqrt (1 - (b1 * b1 + b2 * b2 + b3 * b3))

/-- Modelled from the spec: TFourVectorReal::Boost by a 3-velocity, the
standard boost formula (gamma on the diagonal block, -gamma beta cross
terms): t maps to gamma (t - beta.r), r maps to
r + ((gamma-1)(beta.r)/beta^2 - gamma t) beta.  The implementation files
TLorentzBoost.cxx / TFourVectorReal.cxx are not among the provided
sources. -/
noncomputable def boostFour (b1 b2 b3 : ℝ) (v : FourVec) : FourVec :=
  mkFour
    (gammaFactor b1 b2 b3 * (v 0 - (b1 * v 1 + b2 * v 2 + b3 * v 3)))
    (v 1 + ((gammaFactor b1 b2 b3 - 1) * (b1 * v 1 + b2 * v 2 + b3 * v 3) /
      (b1 * b1 + b2 * b2 + b3 * b3) - gammaFactor b1 b2 b3 * v 0) * b1)
    (v 2 + ((gammaFactor b1 b2 b3 - 1) * (b1 * v 1 + b2 * v 2 + b3 * v 3) /
      (b1 * b1 + b2 * b2 + b3 * b3) - gammaFactor b1 b2 b3 * v 0) * b2)
    (v 3 + ((gammaFactor b1 b2 b3 - 1) * (b1 * v 1 + b2 * v 2 + b3 * v 3) /
      (b1 * b1 + b2 * b2 + b3 * b3) - gammaFactor b1 b2 b3 * v 0) * b3)

theorem gammaFactor_identity (b1 b2 b3 : ℝ) (h : b1 * b1 + b2 * b2 + b3 * b3 < 1) :
    gammaFactor b1 b2 b3 ^ 2 * (1 - (b1 * b1 + b2 * b2 + b3 * b3)) = 1 := by
  unfold gammaFactor
  have hlt : (0 : ℝ) < 1 - (b1 * b1 + b2 * b2 + b3 * b3) := by linarith
  rw [div_pow, one_pow, Real.sq_sqrt (le_of_lt hlt)]
  field_simp

theorem boost_invariantSqr (b1 b2 b3 : ℝ) (v : FourVec)
    (h : b1 * b1 + b2 * b2 + b3 * b3 < 1) :
    InvariantSqr (boostFour b1 b2 b3 v) = InvariantSqr v := by
  have hg := gammaFactor_identity b1 b2 b3 h
  by_cases hz : b1 * b1 + b2 * b2 + b3 * b3 = 0
  · have h1 : b1 = 0 := by nlinarith [mul_self_nonneg b1, mul_self_nonneg b2, mul_self_nonneg b3]
    have h2 : b2 = 0 := by nlinarith [mul_self_nonneg b1, mul_self_nonneg b2, mul_self_nonneg b3]
    have h3 : b3 = 0 := by nlinarith [mul_self_nonneg b1, mul_self_nonneg b2, mul_self_nonneg b3]
    subst h1; subst h2; subst h3
    have hgone : gammaFactor 0 0 0 = 1 := by
      unfold gammaFactor
      norm_num
    unfold InvariantSqr LengthSqr boostFour
    rw [mkFour_at0, mkFour_at1, mkFour_at2, mkFour_at3, hgone]
    ring
  · unfold InvariantSqr LengthSqr boostFour
    rw [mkFour_at0, mkFour_at1, mkFour_at2, mkFour_at3]
    field_simp
    linear_combination ((b1 * b1 + b2 * b2 + b3 * b3) * v 0 ^ 2 -
      (b1 * v 1 + b2 * v 2 + b3 * v 3) ^ 2) * (b1 * b1 + b2 * b2 + b3 * b3) * hg

/-- Sum of a four-valued real family (one Lorentz index contraction). -/
noncomputable def sum4R (f : Fin 4 → ℝ) : ℝ := f 0 + f 1 + f 2 + f 3

/-- Modelled from the spec: application of a TLorentzTransform to a
four-vector (TFourVectorReal::Transform) is matrix-vector multiplication
with the transform's 4x4 real matrix; the implementation files
TLorentzTransform.cxx / TFourVectorReal.cxx are not among the provided
sources. -/
noncomputable def applyXform (M : Fin 4 → Fin 4 → ℝ) (v : FourVec) : FourVec :=
  fun i => sum4R fun j => M i j * v j

/-- Metric signs of the (+,-,-,-) Minkowski metric G = diag(1,-1,-1,-1). -/
noncomputable def metricSign (k : Fin 4) : ℝ := if k = 0 then 1 else -1

/-- Modelled from the spec: validity constraint on a LorentzTransform
matrix, M^T G M = G with G = diag(1,-1,-1,-1), written entrywise. -/
def IsLorentzXform (M : Fin 4 → Fin 4 → ℝ) : Prop :=
  ∀ i j, sum4R (fun k => metricSign k * M k i * M k j) =
    (if i = j then metricSign i else 0)

theorem xform_invariantSqr (M : Fin 4 → Fin 4 → ℝ) (v : FourVec)
    (hM : IsLorentzXform M) :
    InvariantSqr (applyXform M v) = InvariantSqr v := by
  have h00 := hM 0 0
  have h01 := hM 0 1
  have h02 := hM 0 2
  have h03 := hM 0 3
  have h10 := hM 1 0
  have h11 := hM 1 1
  have h12 := hM 1 2
  have h13 := hM 1 3
  have h20 := hM 2 0
  have h21 := hM 2 1
  have h22 := hM 2 2
  have h23 := hM 2 3
  have h30 := hM 3 0
  have h31 := hM 3 1
  have h32 := hM 3 2
  have h33 := hM 3 3
  simp [sum4R, metricSign] at h00 h01 h02 h03 h10 h11 h12 h13
  simp [sum4R, metricSign] at h20 h21 h22 h23 h30 h31 h32 h33
  simp only [InvariantSqr, LengthSqr, applyXform, sum4R]
  linear_combination (v 0 * v 0) * h00 + (v 0 * v 1) * h01 +
    (v 0 * v 2) * h02 + (v 0 * v 3) * h03 + (v 1 * v 0) * h10 +
    (v 1 * v 1) * h11 + (v 1 * v 2) * h12 + (v 1 * v 3) * h13 +
    (v 2 * v 0) * h20 + (v 2 * v 1) * h21 + (v 2 * v 2) * h22 +
    (v 2 * v 3) * h23 + (v 3 * v 0) * h30 + (v 3 * v 1) * h31 +
    (v 3 * v 2) * h32 + (v 3 * v 3) * h33

theorem invariant_eq_of_invSqr_eq (fRes : ℝ) (v w : FourVec)
    (hf : 0 < fRes) (hpres : InvariantSqr w = InvariantSqr v)
    (h0 : 0 ≤ InvariantSqr v) :
    Invariant fRes w = Invariant fRes v := by
  rcases lt_or_eq_of_le h0 with hlt | heq
  · unfold Invariant
    rw [hpres, if_pos hlt, if_pos hlt]
  · unfold Invariant
    rw [hpres, ← heq]
    rw [if_neg (lt_irrefl 0), if_neg (lt_irrefl 0),
        if_pos (neg_neg_of_pos (resolution_pos fRes w hf)),
        if_pos (neg_neg_of_pos (resolution_pos fRes v hf))]

/-- C7 (amended): every valid Lorentz transform (M^T G M = G), and every
velocity-parameterized boost, preserves InvariantSqr exactly; and for
every vector with non-negative invariant-squared the full Invariant()
result (value and error status) of the transformed vector equals that of
the original — in particular the two agree within any resolution
tolerance.  For vectors with invariant-squared negative near the
tolerance boundary the claim fails as stated, see the counterexample. -/
theorem lorentz_invariant_eq :
    ∀ fRes : ℝ, 0 < fRes →
      (∀ (M : Fin 4 → Fin 4 → ℝ) (v : FourVec), IsLorentzXform M →
        InvariantSqr (applyXform M v) = InvariantSqr v ∧
        (0 ≤ InvariantSqr v →
          Invariant fRes (applyXform M v) = Invariant fRes v)) ∧
      (∀ (b1 b2 b3 : ℝ) (v : FourVec), b1 * b1 + b2 * b2 + b3 * b3 < 1 →
        InvariantSqr (boostFour b1 b2 b3 v) = InvariantSqr v ∧
        (0 ≤ InvariantSqr v →
          Invariant fRes (boostFour b1 b2 b3 v) = Invariant fRes v)) := by
  intro fRes hf
  constructor
  · intro M v hM
    have hpres := xform_invariantSqr M v hM
    exact ⟨hpres, fun h0 => invariant_eq_of_invSqr_eq fRes v _ hf hpres h0⟩
  · intro b1 b2 b3 v hb
    have hpres := boost_invariantSqr b1 b2 b3 v hb
    exact ⟨hpres, fun h0 => invariant_eq_of_invSqr_eq fRes v _ hf hpres h0⟩

theorem fin4val2 : ((2 : Fin 4)).val = 2 := rfl

theorem fin4val3 : ((3 : Fin 4)).val = 3 := rfl

/-- The matrix of an x-boost with beta = 4/5, gamma = 5/3: a concrete
valid Lorentz transform. -/
noncomputable def xBoostMat45 : Fin 4 → Fin 4 → ℝ :=
  fun i j =>
    if i.val = 0 then
      (if j.val = 0 then 5 / 3 else if j.val = 1 then -(4 / 3) else 0)
    else if i.val = 1 then
      (if j.val = 0 then -(4 / 3) else if j.val = 1 then 5 / 3 else 0)
    else if i.val = 2 then (if j.val = 2 then 1 else 0)
    else (if j.val = 3 then 1 else 0)

theorem lorentz_invariant_eq_witness :
    (0 : ℝ) < 1e-12 ∧
    IsLorentzXform xBoostMat45 ∧
    (4 / 5 : ℝ) * (4 / 5) + 0 * 0 + 0 * 0 < 1 ∧
    0 ≤ InvariantSqr (mkFour 5 3 0 0) ∧
    Invariant 1e-12 (applyXform xBoostMat45 (mkFour 5 3 0 0)) =
      Invariant 1e-12 (mkFour 5 3 0 0) ∧
    Invariant 1e-12 (boostFour (4 / 5) 0 0 (mkFour 5 3 0 0)) =
      Invariant 1e-12 (mkFour 5 3 0 0) := by
  have h0 : 0 ≤ InvariantSqr (mkFour 5 3 0 0) := by
    unfold InvariantSqr LengthSqr
    rw [mkFour_at0, mkFour_at1, mkFour_at2, mkFour_at3]
    norm_num
  have hM : IsLorentzXform xBoostMat45 := by
    intro i j
    fin_cases i <;> fin_cases j <;>
      norm_num [sum4R, metricSign, xBoostMat45, fin4val2, fin4val3, Fin.ext_iff]
  refine ⟨by norm_num, hM, by norm_num, h0, ?_, ?_⟩
  · exact ((lorentz_invariant_eq 1e-12 (by norm_num)).1 xBoostMat45
      (mkFour 5 3 0 0) hM).2 h0
  · exact ((lorentz_invariant_eq 1e-12 (by norm_num)).2 (4 / 5) 0 0
      (mkFour 5 3 0 0) (by norm_num)).2 h0

/-- C7 counterexample: for a slightly spacelike vector the Invariant()
values of the original and the boosted vector are 1 apart (error fallback
-1 versus clamped 0), far beyond the resolution tolerance, although the
boost is valid. -/
theorem boost_invariant_not_approx :
    (39999 / 40001 : ℝ) * (39999 / 40001) + 0 * 0 + 0 * 0 < 1 ∧
    Invariant 1e-12 (mkFour 0 1e-10 0 0) = (true, -1) ∧
    Invariant 1e-12 (boostFour (39999 / 40001) 0 0 (mkFour 0 1e-10 0 0)) =
      (false, 0) ∧
    Resolution 1e-12 (mkFour 0 1e-10 0 0) <
      |(Invariant 1e-12 (boostFour (39999 / 40001) 0 0 (mkFour 0 1e-10 0 0))).2 -
        (Invariant 1e-12 (mkFour 0 1e-10 0 0)).2| := by
  have hgamma : gammaFactor (39999 / 40001) 0 0 = 40001 / 400 := by
    unfold gammaFactor
    rw [show (1 - ((39999 / 40001 : ℝ) * (39999 / 40001) + 0 * 0 + 0 * 0)) =
        (400 / 40001 : ℝ) ^ 2 by norm_num]
    rw [Real.sqrt_sq (by norm_num)]
    norm_num
  have hinv : InvariantSqr (mkFour 0 1e-10 0 0) = -(1e-20) := by
    unfold InvariantSqr LengthSqr
    rw [mkFour_at0, mkFour_at1, mkFour_at2, mkFour_at3]
    norm_num
  have hresv : Resolution 1e-12 (mkFour 0 1e-10 0 0) = 1e-12 * 1e-10 := by
    have hs : (mkFour 0 1e-10 0 0) 0 * (mkFour 0 1e-10 0 0) 0 +
        LengthSqr (mkFour 0 1e-10 0 0) = (1e-10 : ℝ) ^ 2 := by
      unfold LengthSqr
      rw [mkFour_at0, mkFour_at1, mkFour_at2, mkFour_at3]
      norm_num
    unfold Resolution
    rw [hs, Real.sqrt_sq (by norm_num), if_pos (by norm_num : (0:ℝ) < 1e-10)]
  have hIv : Invariant 1e-12 (mkFour 0 1e-10 0 0) = (true, -1) := by
    unfold Invariant
    rw [hinv, hresv, if_neg (by norm_num), if_neg (by norm_num)]
  have hB0 : boostFour (39999 / 40001) 0 0 (mkFour 0 1e-10 0 0) 0 =
      -(39999 / 4000000000000) := by
    unfold boostFour
    rw [mkFour_at0, mkFour_at0, mkFour_at1, mkFour_at2, mkFour_at3, hgamma]
    norm_num
  have hB1 : boostFour (39999 / 40001) 0 0 (mkFour 0 1e-10 0 0) 1 =
      40001 / 4000000000000 := by
    unfold boostFour
    rw [mkFour_at1, mkFour_at0, mkFour_at1, mkFour_at2, mkFour_at3, hgamma]
    norm_num
  have hB2 : boostFour (39999 / 40001) 0 0 (mkFour 0 1e-10 0 0) 2 = 0 := by
    unfold boostFour
    rw [mkFour_at2, mkFour_at0, mkFour_at1, mkFour_at2, mkFour_at3, hgamma]
    norm_num
  have hB3 : boostFour (39999 / 40001) 0 0 (mkFour 0 1e-10 0 0) 3 = 0 := by
    unfold boostFour
    rw [mkFour_at3, mkFour_at0, mkFour_at1, mkFour_at2, mkFour_at3, hgamma]
    norm_num
  have hinvB : InvariantSqr (boostFour (39999 / 40001) 0 0 (mkFour 0 1e-10 0 0)) =
      -(1e-20) := by
    unfold InvariantSqr LengthSqr
    rw [hB0, hB1, hB2, hB3]
    norm_num
  have hscaleB : (boostFour (39999 / 40001) 0 0 (mkFour 0 1e-10 0 0)) 0 *
      (boostFour (39999 / 40001) 0 0 (mkFour 0 1e-10 0 0)) 0 +
      LengthSqr (boostFour (39999 / 40001) 0 0 (mkFour 0 1e-10 0 0)) =
      3200000002 / 16000000000000000000000000 := by
    unfold LengthSqr
    rw [hB0, hB1, hB2, hB3]
    norm_num
  have hresB : -Resolution 1e-12 (boostFour (39999 / 40001) 0 0 (mkFour 0 1e-10 0 0)) <
      -(1e-20) := by
    unfold Resolution
    rw [hscaleB, if_pos (Real.sqrt_pos.2 (by norm_num))]
    have hsq : (1e-8 : ℝ) < Real.sqrt (3200000002 / 16000000000000000000000000) :=
      (Real.lt_sqrt (by norm_num)).2 (by norm_num)
    nlinarith [hsq]
  have hIB : Invariant 1e-12 (boostFour (39999 / 40001) 0 0 (mkFour 0 1e-10 0 0)) =
      (false, 0) := by
    unfold Invariant
    rw [hinvB]
    rw [if_neg (by norm_num), if_pos hresB]
  refine ⟨by norm_num, hIv, hIB, ?_⟩
  rw [hIv, hIB, hresv]
  norm_num

/-- Complex amplitude scalar, the Complex_t of the library, with machine
floating point modelled by exact rationals. -/
structure Cplx where
  re : ℚ
  im : ℚ

instance : Add Cplx := ⟨fun a b => ⟨a.re + b.re, a.im + b.im⟩⟩

instance : Mul Cplx := ⟨fun a b => ⟨a.re * b.re - a.im * b.im, a.re * b.im + a.im * b.re⟩⟩

instance : Zero Cplx := ⟨⟨0, 0⟩⟩

instance : One Cplx := ⟨⟨1, 0⟩⟩

theorem Cplx.add_re (a b : Cplx) : (a + b).re = a.re + b.re := rfl

theorem Cplx.add_im (a b : Cplx) : (a + b).im = a.im + b.im := rfl

theorem Cplx.mul_re (a b : Cplx) : (a * b).re = a.re * b.re - a.im * b.im := rfl

theorem Cplx.mul_im (a b : Cplx) : (a * b).im = a.re * b.im + a.im * b.re := rfl

theorem Cplx.one_re : (1 : Cplx).re = 1 := rfl

theorem Cplx.one_im : (1 : Cplx).im = 0 := rfl

theorem Cplx.zero_re : (0 : Cplx).re = 0 := rfl

theorem Cplx.zero_im : (0 : Cplx).im = 0 := rfl

/-- Complex conjugation, std::conj. -/
def Cplx.conj (a : Cplx) : Cplx := ⟨a.re, -a.im⟩

/-- The imaginary unit. -/
def Cplx.I : Cplx := ⟨0, 1⟩

theorem Cplx.extIff {a b : Cplx} : a = b ↔ a.re = b.re ∧ a.im = b.im := by
  constructor
  · intro h
    exact ⟨by rw [h], by rw [h]⟩
  · intro h
    cases a
    cases b
    simp_all

theorem Cplx.mulAssoc (a b c : Cplx) : a * b * c = a * (b * c) := by
  rw [Cplx.extIff]
  refine ⟨?_, ?_⟩ <;> simp only [Cplx.mul_re, Cplx.mul_im] <;> ring

theorem Cplx.mulComm (a b : Cplx) : a * b = b * a := by
  rw [Cplx.extIff]
  refine ⟨?_, ?_⟩ <;> simp only [Cplx.mul_re, Cplx.mul_im] <;> ring

instance : Std.Associative (fun (a b : Cplx) => a * b) := ⟨Cplx.mulAssoc⟩

instance : Std.Commutative (fun (a b : Cplx) => a * b) := ⟨Cplx.mulComm⟩

/-- Sum of a two-valued family, one helicity or polarization loop of the
spin sums in TCrossSection.cxx. -/
def sum2 (f : Fin 2 → Cplx) : Cplx := f 0 + f 1

theorem sum2_congr {f g : Fin 2 → Cplx} (h : ∀ i, f i = g i) :
    sum2 f = sum2 g := by
  unfold sum2
  rw [h 0, h 1]

/-- Spin sum of TCrossSection::Compton (TCrossSection.cxx lines 194-216):
ampSquared accumulated over all helicity/polarization index pairs with the
SDM weights exactly as in the source. -/
def comptonAmpSquared (invAmp : Fin 2 → Fin 2 → Fin 2 → Fin 2 → Cplx)
    (eIsdm eFsdm gIsdm gFsdm : Fin 2 → Fin 2 → Cplx) : Cplx :=
  sum2 fun gi => sum2 fun gibar => sum2 fun gf => sum2 fun gfbar =>
  sum2 fun hi => sum2 fun hibar => sum2 fun hf => sum2 fun hfbar =>
    invAmp hi hf gi gf * Cplx.conj (invAmp hibar hfbar gibar gfbar) *
    eIsdm hi hibar * eFsdm hfbar hf * gIsdm gi gibar * gFsdm gfbar gf

/-- Spin sum following the specification sentence for Compton: amplitude
times conjugate amplitude, times SDM[h,hbar] for each incoming particle
(eIn, gIn) and SDM[hbar,h] for each outgoing particle (eOut, gOut). -/
def comptonAmpSquaredSpec (invAmp : Fin 2 → Fin 2 → Fin 2 → Fin 2 → Cplx)
    (eIsdm eFsdm gIsdm gFsdm : Fin 2 → Fin 2 → Cplx) : Cplx :=
  sum2 fun gi => sum2 fun gibar => sum2 fun gf => sum2 fun gfbar =>
  sum2 fun hi => sum2 fun hibar => sum2 fun hf => sum2 fun hfbar =>
    invAmp hi hf gi gf * Cplx.conj (invAmp hibar hfbar gibar gfbar) *
    (eIsdm hi hibar * gIsdm gi gibar) *
    (eFsdm hfbar hf * gFsdm gfbar gf)

/-- Spin sum of TCrossSection::Bremsstrahlung (TCrossSection.cxx lines
305-325), the ampSquared accumulation. -/
def bremsAmpSquared (invAmp : Fin 2 → Fin 2 → Fin 2 → Cplx)
    (eIsdm eFsdm gFsdm : Fin 2 → Fin 2 → Cplx) : Cplx :=
  sum2 fun gf => sum2 fun gfbar =>
  sum2 fun hi => sum2 fun hibar => sum2 fun hf => sum2 fun hfbar =>
    invAmp hi hf gf * Cplx.conj (invAmp hibar hfbar gfbar) *
    eIsdm hi hibar * eFsdm hfbar hf * gFsdm gfbar gf

/-- Spin sum following the specification sentence for Bremsstrahlung:
incoming eIn weighted [h,hbar], outgoing eOut and gOut weighted [hbar,h]. -/
def bremsAmpSquaredSpec (invAmp : Fin 2 → Fin 2 → Fin 2 → Cplx)
    (eIsdm eFsdm gFsdm : Fin 2 → Fin 2 → Cplx) : Cplx :=
  sum2 fun gf => sum2 fun gfbar =>
  sum2 fun hi => sum2 fun hibar => sum2 fun hf => sum2 fun hfbar =>
    invAmp hi hf gf * Cplx.conj (invAmp hibar hfbar gfbar) *
    (eIsdm hi hibar) * (eFsdm hfbar hf * gFsdm gfbar gf)

/-- Spin sum of TCrossSection::PairProduction (TCrossSection.cxx lines
421-439).  Note the outgoing positron weight pFsdm[hi][hibar] in direct
index order in the source. -/
def pairAmpSquared (invAmp : Fin 2 → Fin 2 → Fin 2 → Cplx)
    (pFsdm eFsdm gIsdm : Fin 2 → Fin 2 → Cplx) : Cplx :=
  sum2 fun gi => sum2 fun gibar =>
  sum2 fun hi => sum2 fun hibar => sum2 fun hf => sum2 fun hfbar =>
    invAmp hi hf gi * Cplx.conj (invAmp hibar hfbar gibar) *
    pFsdm hi hibar * eFsdm hfbar hf * gIsdm gi gibar

/-- Spin sum following the specification sentence for PairProduction:
incoming gIn weighted [h,hbar]; outgoing particles (both the positron and
the electron) weighted in reversed order [hbar,h]. -/
def pairAmpSquaredSpec (invAmp : Fin 2 → Fin 2 → Fin 2 → Cplx)
    (pFsdm eFsdm gIsdm : Fin 2 → Fin 2 → Cplx) : Cplx :=
  sum2 fun gi => sum2 fun gibar =>
  sum2 fun hi => sum2 fun hibar => sum2 fun hf => sum2 fun hfbar =>
    invAmp hi hf gi * Cplx.conj (invAmp hibar hfbar gibar) *
    (gIsdm gi gibar) * (pFsdm hibar hi * eFsdm hfbar hf)

/-- Spin sum for PairProduction as amended: the outgoing positron, built
from V spinors, is weighted in direct order [h,hbar]; the outgoing
electron keeps the reversed order [hbar,h]. -/
def pairAmpSquaredSpecAmended (invAmp : Fin 2 → Fin 2 → Fin 2 → Cplx)
    (pFsdm eFsdm gIsdm : Fin 2 → Fin 2 → Cplx) : Cplx :=
  sum2 fun gi => sum2 fun gibar =>
  sum2 fun hi => sum2 fun hibar => sum2 fun hf => sum2 fun hfbar =>
    invAmp hi hf gi * Cplx.conj (invAmp hibar hfbar gibar) *
    (gIsdm gi gibar) * (pFsdm hi hibar * eFsdm hfbar hf)

/-- Spin sum of TCrossSection::TripletProduction (TCrossSection.cxx lines
615-643).  The outgoing positron weight e1sdm[h1][h1bar] is in direct
index order in the source; the outgoing electrons e2, e3 are reversed. -/
def tripletAmpSquared (invAmp : Fin 2 → Fin 2 → Fin 2 → Fin 2 → Fin 2 → Cplx)
    (e0sdm e1sdm e2sdm e3sdm g0sdm : Fin 2 → Fin 2 → Cplx) : Cplx :=
  sum2 fun gi => sum2 fun gibar =>
  sum2 fun h0 => sum2 fun h0bar =>
  sum2 fun h1 => sum2 fun h1bar =>
  sum2 fun h2 => sum2 fun h2bar =>
  sum2 fun h3 => sum2 fun h3bar =>
    invAmp h0 h1 h2 h3 gi * Cplx.conj (invAmp h0bar h1bar h2bar h3bar gibar) *
    e0sdm h0 h0bar * e1sdm h1 h1bar * e2sdm h2bar h2 * e3sdm h3bar h3 *
    g0sdm gi gibar

/-- Spin sum for TripletProduction as amended: incoming e0, g0 weighted
[h,hbar]; outgoing electrons e2, e3 weighted [hbar,h]; the outgoing
positron e1, built from V spinors, weighted in direct order [h,hbar]. -/
def tripletAmpSquaredSpecAmended
    (invAmp : Fin 2 → Fin 2 → Fin 2 → Fin 2 → Fin 2 → Cplx)
    (e0sdm e1sdm e2sdm e3sdm g0sdm : Fin 2 → Fin 2 → Cplx) : Cplx :=
  sum2 fun gi => sum2 fun gibar =>
  sum2 fun h0 => sum2 fun h0bar =>
  sum2 fun h1 => sum2 fun h1bar =>
  sum2 fun h2 => sum2 fun h2bar =>
  sum2 fun h3 => sum2 fun h3bar =>
    invAmp h0 h1 h2 h3 gi * Cplx.conj (invAmp h0bar h1bar h2bar h3bar gibar) *
    (e0sdm h0 h0bar * g0sdm gi gibar) * (e1sdm h1 h1bar) *
    (e2sdm h2bar h2 * e3sdm h3bar h3)

/-- Spin sum of TCrossSection::eeBremsstrahlung (TCrossSection.cxx lines
814-842). -/
def eeBremsAmpSquared (invAmp : Fin 2 → Fin 2 → Fin 2 → Fin 2 → Fin 2 → Cplx)
    (e0sdm e1sdm e2sdm e3sdm g0sdm : Fin 2 → Fin 2 → Cplx) : Cplx :=
  sum2 fun gf => sum2 fun gfbar =>
  sum2 fun h0 => sum2 fun h0bar =>
  sum2 fun h1 => sum2 fun h1bar =>
  sum2 fun h2 => sum2 fun h2bar =>
  sum2 fun h3 => sum2 fun h3bar =>
    invAmp h0 h1 h2 h3 gf * Cplx.conj (invAmp h0bar h1bar h2bar h3bar gfbar) *
    e0sdm h0 h0bar * e1sdm h1 h1bar * e2sdm h2bar h2 * e3sdm h3bar h3 *
    g0sdm gfbar gf

/-- Spin sum following the specification sentence for eeBremsstrahlung:
incoming e0, e1 weighted [h,hbar]; outgoing e2, e3 and the outgoing
photon weighted [hbar,h]. -/
def eeBremsAmpSquaredSpec (invAmp : Fin 2 → Fin 2 → Fin 2 → Fin 2 → Fin 2 → Cplx)
    (e0sdm e1sdm e2sdm e3sdm g0sdm : Fin 2 → Fin 2 → Cplx) : Cplx :=
  sum2 fun gf => sum2 fun gfbar =>
  sum2 fun h0 => sum2 fun h0bar =>
  sum2 fun h1 => sum2 fun h1bar =>
  sum2 fun h2 => sum2 fun h2bar =>
  sum2 fun h3 => sum2 fun h3bar =>
    invAmp h0 h1 h2 h3 gf * Cplx.conj (invAmp h0bar h1bar h2bar h3bar gfbar) *
    (e0sdm h0 h0bar * e1sdm h1 h1bar) *
    (e2sdm h2bar h2 * e3sdm h3bar h3 * g0sdm gfbar gf)

/-- C1 (amended): the spin-summed amplitude-squared of every reaction
function weights each incoming particle by SDM[h,hbar] and each outgoing
particle by SDM[hbar,h], except that outgoing antileptons (V-spinor legs:
the positron of PairProduction and of TripletProduction) are weighted in
direct order SDM[h,hbar]. -/
theorem ampSquared_sdm_weights :
    (∀ invAmp eIsdm eFsdm gIsdm gFsdm,
      comptonAmpSquared invAmp eIsdm eFsdm gIsdm gFsdm =
      comptonAmpSquaredSpec invAmp eIsdm eFsdm gIsdm gFsdm) ∧
    (∀ invAmp eIsdm eFsdm gFsdm,
      bremsAmpSquared invAmp eIsdm eFsdm gFsdm =
      bremsAmpSquaredSpec invAmp eIsdm eFsdm gFsdm) ∧
    (∀ invAmp pFsdm eFsdm gIsdm,
      pairAmpSquared invAmp pFsdm eFsdm gIsdm =
      pairAmpSquaredSpecAmended invAmp pFsdm eFsdm gIsdm) ∧
    (∀ invAmp e0sdm e1sdm e2sdm e3sdm g0sdm,
      tripletAmpSquared invAmp e0sdm e1sdm e2sdm e3sdm g0sdm =
      tripletAmpSquaredSpecAmended invAmp e0sdm e1sdm e2sdm e3sdm g0sdm) ∧
    (∀ invAmp e0sdm e1sdm e2sdm e3sdm g0sdm,
      eeBremsAmpSquared invAmp e0sdm e1sdm e2sdm e3sdm g0sdm =
      eeBremsAmpSquaredSpec invAmp e0sdm e1sdm e2sdm e3sdm g0sdm) := by
  refine ⟨?_, ?_, ?_, ?_, ?_⟩
  · intro invAmp eIsdm eFsdm gIsdm gFsdm
    unfold comptonAmpSquared comptonAmpSquaredSpec
    refine sum2_congr fun gi => sum2_congr fun gibar =>
      sum2_congr fun gf => sum2_congr fun gfbar =>
      sum2_congr fun hi => sum2_congr fun hibar =>
      sum2_congr fun hf => sum2_congr fun hfbar => ?_
    ac_rfl
  · intro invAmp eIsdm eFsdm gFsdm
    unfold bremsAmpSquared bremsAmpSquaredSpec
    refine sum2_congr fun gf => sum2_congr fun gfbar =>
      sum2_congr fun hi => sum2_congr fun hibar =>
      sum2_congr fun hf => sum2_congr fun hfbar => ?_
    ac_rfl
  · intro invAmp pFsdm eFsdm gIsdm
    unfold pairAmpSquared pairAmpSquaredSpecAmended
    refine sum2_congr fun gi => sum2_congr fun gibar =>
      sum2_congr fun hi => sum2_congr fun hibar =>
      sum2_congr fun hf => sum2_congr fun hfbar => ?_
    ac_rfl
  · intro invAmp e0sdm e1sdm e2sdm e3sdm g0sdm
    unfold tripletAmpSquared tripletAmpSquaredSpecAmended
    refine sum2_congr fun gi => sum2_congr fun gibar =>
      sum2_congr fun h0 => sum2_congr fun h0bar =>
      sum2_congr fun h1 => sum2_congr fun h1bar =>
      sum2_congr fun h2 => sum2_congr fun h2bar =>
      sum2_congr fun h3 => sum2_congr fun h3bar => ?_
    ac_rfl
  · intro invAmp e0sdm e1sdm e2sdm e3sdm g0sdm
    unfold eeBremsAmpSquared eeBremsAmpSquaredSpec
    refine sum2_congr fun gf => sum2_congr fun gfbar =>
      sum2_congr fun h0 => sum2_congr fun h0bar =>
      sum2_congr fun h1 => sum2_congr fun h1bar =>
      sum2_congr fun h2 => sum2_congr fun h2bar =>
      sum2_congr fun h3 => sum2_congr fun h3bar => ?_
    ac_rfl

/-- Amplitude tensor used to separate the two contraction orders: the
positron helicity index enters with weight 1 or i. -/
def ampPairWit : Fin 2 → Fin 2 → Fin 2 → Cplx :=
  fun hi hf gi =>
    if hf = 0 ∧ gi = 0 then (if hi = 0 then 1 else Cplx.I) else 0

/-- Non-Hermitian test weight matrix with a single upper off-diagonal
entry. -/
def sdmUpperOff : Fin 2 → Fin 2 → Cplx :=
  fun i j => if i = 0 ∧ j = 1 then 1 else 0

/-- Test weight matrix projecting on the first index value. -/
def sdmProj0 : Fin 2 → Fin 2 → Cplx :=
  fun i j => if i = 0 ∧ j = 0 then 1 else 0

/-- C1 counterexample: in PairProduction the source weights the outgoing
positron by SDM[h,hbar] (direct order), not SDM[hbar,h] as the claim
states for every outgoing particle; at this input the two contractions
give -i versus +i. -/
theorem pairAmpSquared_sdm_order_ce :
    pairAmpSquared ampPairWit sdmUpperOff sdmProj0 sdmProj0 ≠
    pairAmpSquaredSpec ampPairWit sdmUpperOff sdmProj0 sdmProj0 := by
  have h1 : pairAmpSquared ampPairWit sdmUpperOff sdmProj0 sdmProj0 =
      ⟨0, -1⟩ := by
    rw [Cplx.extIff]
    constructor <;>
      simp [pairAmpSquared, sum2, ampPairWit, sdmUpperOff, sdmProj0,
        Cplx.conj, Cplx.I, Cplx.mul_re, Cplx.mul_im, Cplx.add_re, Cplx.add_im,
        Cplx.one_re, Cplx.one_im, Cplx.zero_re, Cplx.zero_im]
  have h2 : pairAmpSquaredSpec ampPairWit sdmUpperOff sdmProj0 sdmProj0 =
      ⟨0, 1⟩ := by
    rw [Cplx.extIff]
    constructor <;>
      simp [pairAmpSquaredSpec, sum2, ampPairWit, sdmUpperOff, sdmProj0,
        Cplx.conj, Cplx.I, Cplx.mul_re, Cplx.mul_im, Cplx.add_re, Cplx.add_im,
        Cplx.one_re, Cplx.one_im, Cplx.zero_re, Cplx.zero_im]
  rw [h1, h2]
  intro h
  rw [Cplx.extIff] at h
  norm_num at h

/-- Four-by-four complex matrix, the TDiracMatrix value representation. -/
def Mat4 : Type := Fin 4 → Fin 4 → Cplx

/-- Sum of a four-valued family (one Dirac index contraction). -/
def sum4 (f : Fin 4 → Cplx) : Cplx := f 0 + f 1 + f 2 + f 3

/-- Matrix product of TDiracMatrix. -/
def matMul (a b : Mat4) : Mat4 := fun i j => sum4 fun k => a i k * b k j

/-- Matrix sum of TDiracMatrix. -/
def matAdd (a b : Mat4) : Mat4 := fun i j => a i j + b i j

/-- Scaling of a TDiracMatrix by a scalar (operator*=). -/
def matScale (c : Cplx) (a : Mat4) : Mat4 := fun i j => c * a i j

/-- Dirac chain A of TCrossSection::eeBremsstrahlung (TCrossSection.cxx
lines 780-782), exactly as written in the source:
A = gamma[mu] * epropA1 * epsF + epsF * epropA2 * gamma[mu], then scaled
by the photon-propagator scalar gpropA. -/
def eeBremChainA (gammaMu epropA1 epropA2 epsF : Mat4) (gprop : Cplx) : Mat4 :=
  matScale gprop (matAdd (matMul (matMul gammaMu epropA1) epsF)
    (matMul (matMul epsF epropA2) gammaMu))

/-- Dirac chain B of TCrossSection::eeBremsstrahlung (lines 783-785),
exactly as written in the source:
B = gamma[mu] + epropB1 * epsF + epsF * epropB2 * gamma[mu] — the first
operator in the source is +, not *, so gamma[mu] is added rather than
multiplied into the first term — then scaled by gpropB. -/
def eeBremChainB (gammaMu epropB1 epropB2 epsF : Mat4) (gprop : Cplx) : Mat4 :=
  matScale gprop (matAdd (matAdd gammaMu (matMul epropB1 epsF))
    (matMul (matMul epsF epropB2) gammaMu))

/-- Dirac chain C of TCrossSection::eeBremsstrahlung (lines 786-788),
exactly as written in the source, with the same + slip as chain B. -/
def eeBremChainC (gammaMu epropC1 epropC2 epsF : Mat4) (gprop : Cplx) : Mat4 :=
  matScale gprop (matAdd (matAdd gammaMu (matMul epropC1 epsF))
    (matMul (matMul epsF epropC2) gammaMu))

/-- Dirac chain D of TCrossSection::eeBremsstrahlung (lines 789-791),
exactly as written in the source, with the same + slip as chain B. -/
def eeBremChainD (gammaMu epropD1 epropD2 epsF : Mat4) (gprop : Cplx) : Mat4 :=
  matScale gprop (matAdd (matAdd gammaMu (matMul epropD1 epsF))
    (matMul (matMul epsF epropD2) gammaMu))

/-- Dirac chain CD2 of TCrossSection::TripletProduction (TCrossSection.cxx
lines 581-583): CD2 = gamma[mu] * epropCD2a * epsI + epsI * epropCD2b *
gamma[mu], scaled by gpropCD2.  The other triplet chains BH2, CD3, BH3
(lines 584-592) have this same vertex-propagator-vertex shape. -/
def tripletChainCD2 (gammaMu epropa epropb epsI : Mat4) (gprop : Cplx) : Mat4 :=
  matScale gprop (matAdd (matMul (matMul gammaMu epropa) epsI)
    (matMul (matMul epsI epropb) gammaMu))

/-- Identity Dirac matrix. -/
def idMat : Mat4 := fun i j => if i = j then 1 else 0

/-- Modelled from the spec: the time-like gamma-matrix basis element in
the standard Dirac-Pauli representation, diag(1,1,-1,-1) (TDiracMatrix.h
is not among the provided sources).  Used only as a concrete nonzero
vertex matrix in evaluations. -/
def diracGamma0 : Mat4 :=
  fun i j => if i = j then (if (i : ℕ) < 2 then 1 else ⟨-1, 0⟩) else 0

/-- C2: chain A of eeBremsstrahlung is assembled as the sum of two
vertex-propagator-vertex triple products, identically to the
TripletProduction chains; chains B, C and D are not — the source adds
gamma[mu] instead of multiplying it into the first term, so at concrete
inputs (identity propagators and polarization slash, unit photon
propagator, mu = 0) they differ from the triple-product form. -/
theorem eeBremChains_shape :
    (∀ gammaMu eprop1 eprop2 epsF gprop,
      eeBremChainA gammaMu eprop1 eprop2 epsF gprop =
      tripletChainCD2 gammaMu eprop1 eprop2 epsF gprop) ∧
    eeBremChainB diracGamma0 idMat idMat idMat 1 ≠
      tripletChainCD2 diracGamma0 idMat idMat idMat 1 ∧
    eeBremChainC diracGamma0 idMat idMat idMat 1 ≠
      tripletChainCD2 diracGamma0 idMat idMat idMat 1 ∧
    eeBremChainD diracGamma0 idMat idMat idMat 1 ≠
      tripletChainCD2 diracGamma0 idMat idMat idMat 1 := by
  refine ⟨fun _ _ _ _ _ => rfl, ?_, ?_, ?_⟩ <;>
  · intro h
    have h00 := congrFun (congrFun h 0) 0
    rw [Cplx.extIff] at h00
    simp [eeBremChainB, eeBremChainC, eeBremChainD, tripletChainCD2,
      matScale, matAdd, matMul, sum4, idMat, diracGamma0,
      Cplx.mul_re, Cplx.mul_im, Cplx.add_re, Cplx.add_im,
      Cplx.one_re, Cplx.one_im, Cplx.zero_re, Cplx.zero_im] at h00

/-- Flux factor fluxIn of TCrossSection::Compton (TCrossSection.cxx line
228). -/
noncomputable def comptonFluxIn (gI eI : FourVec) : ℝ :=
  4 * gI 0 * (Length eI + eI 0)

/-- Final-state density factor rhoFin of TCrossSection::Compton (line
229). -/
noncomputable def comptonRhoFin (gF eF : FourVec) : ℝ :=
  gF 0 * gF 0 / ScalarProd eF gF / 4

/-- Kinematic factor kinFactor of TCrossSection::Compton (line 230). -/
noncomputable def comptonKinFactor (gI eI gF eF : FourVec) : ℝ :=
  4 * comptonRhoFin gF eF / comptonFluxIn gI eI

/-- Value diffXsect of TCrossSection::Compton (line 232): the
amplitude-engine result hbarcSqr * alphaQED^2 * Re(ampSquared) *
kinFactor; amp2re stands for the real part of the spin-summed
amplitude-squared. -/
noncomputable def comptonDiffXsect (hbc alpha amp2re : ℝ)
    (gI eI gF eF : FourVec) : ℝ :=
  hbc * (alpha * alpha) * amp2re * comptonKinFactor gI eI gF eF

/-- The Klein-Nishina cross-check value computed by the source after the
unconditional return (TCrossSection.cxx lines 237-243). -/
noncomputable def kleinNishina (hbc alpha mLepton : ℝ) (gI gF : FourVec) : ℝ :=
  (alpha / mLepton * (alpha / mLepton) / 2) *
  (gF 0 / gI 0 * (gF 0 / gI 0)) *
  (gF 0 / gI 0 + gI 0 / gF 0 - (1 - gF 3 / gF 0 * (gF 3 / gF 0))) * hbc

/-- Return statements of the tail of TCrossSection::Compton in source
order: `return diffXsect` at line 234, then `return KleinNishinaResult`
at line 243.  C++ executes the first return reached, so the function
value is the head of this sequence. -/
noncomputable def comptonReturnSeq (hbc alpha mLepton amp2re : ℝ)
    (gI eI gF eF : FourVec) : List ℝ :=
  [comptonDiffXsect hbc alpha amp2re gI eI gF eF,
   kleinNishina hbc alpha mLepton gI gF]

/-- Value returned by TCrossSection::Compton: the first return statement
in the sequence. -/
noncomputable def comptonReturnValue (hbc alpha mLepton amp2re : ℝ)
    (gI eI gF eF : FourVec) : ℝ :=
  (comptonReturnSeq hbc alpha mLepton amp2re gI eI gF eF).headD 0

/-- C4: Compton returns the amplitude-engine value
hbarcSqr * alphaQED^2 * Re(ampSquared) * kinFactor for every input; the
Klein-Nishina block after the unconditional return never influences the
returned value (in particular the result does not depend on the lepton
mass, which only the dead block reads). -/
theorem compton_returns_engine_value :
    (∀ (hbc alpha mLepton amp2re : ℝ) (gI eI gF eF : FourVec),
      comptonReturnValue hbc alpha mLepton amp2re gI eI gF eF =
      hbc * (alpha * alpha) * amp2re * comptonKinFactor gI eI gF eF) ∧
    (∀ (hbc alpha mLepton mAlt amp2re : ℝ) (gI eI gF eF : FourVec),
      comptonReturnValue hbc alpha mLepton amp2re gI eI gF eF =
      comptonReturnValue hbc alpha mAlt amp2re gI eI gF eF) :=
  ⟨fun _ _ _ _ _ _ _ _ => rfl, fun _ _ _ _ _ _ _ _ _ => rfl⟩

end Diracxx
